import Mathlib

/-!
# Verification of `opticFlowLK` (src/lucas_kanade.c)

Shallow embedding of the pyramidal Lucas-Kanade tracker `opticFlowLK`.
The image-processing helpers (`pyramid_build`, `image_subpixel_window`,
`image_gradients`, `image_calculate_g`, `image_difference`,
`image_multiply`) are external collaborators not present in the
repository's sources; they are modelled as oracles in `LKEnv`:
the G-matrix, the window-difference error and the two multiply-reductions
are functions of the pyramid level, the reference window centre
(the point's position at the start of the level) and, for the latter
three, the candidate position of the current iteration.  Pyramid level
dimensions `pyramid_old[LVL].w/h` are likewise oracle functions of the
level.  Coordinates and flows are modelled as unbounded integers (the
header with the concrete widths of `point_t`/`flow_t` is not part of the
sources; the spec documents them as plain integer subpixel coordinates
with a documented no-overflow precondition), while the computations the
C file itself performs on declared 8/16/32-bit variables (`uint8_t exp`,
`int32_t Det`, the `int32_t` step arithmetic) are modelled with explicit
wrap-around.
-/

/-- Two's-complement truncation of an integer to 32 bits (the effect of
storing into an `int32_t`, and of the wrap-around of 32-bit signed
multiplication as compiled on the target). -/
def toInt32 (z : Int) : Int := (z + 2147483648) % 4294967296 - 2147483648

/-- `patch_size = 2 * half_window_size + 1`, stored in a `uint16_t`
(line 94 of lucas_kanade.c). -/
def patchSize (hw : Nat) : Nat := (2 * hw + 1) % 65536

/-- `error_threshold = (25 * 25) * (patch_size * patch_size)`
(line 95 of lucas_kanade.c). -/
def errorThreshold (hw : Nat) : Nat := 625 * (patchSize hw * patchSize hw)

/-- The `uint8_t exp` divisor: `exp = 1; for k in 0..pyramid_level-1, exp *= 2`,
with every store truncated to 8 bits (lines 107-109 of lucas_kanade.c). -/
def expComp : Nat → Nat
  | 0 => 1
  | k + 1 => expComp k * 2 % 256

/-- The `int32_t G[4]` gradient matrix `[G00 G01; G10 G11]` produced by
`image_calculate_g`. -/
structure GMat where
  g0 : Int
  g1 : Int
  g2 : Int
  g3 : Int
deriving DecidableEq

/-- The oracle output lands in an `int32_t G[4]`, so each entry is
truncated to 32 bits. -/
def normG (m : GMat) : GMat :=
  ⟨toInt32 m.g0, toInt32 m.g1, toInt32 m.g2, toInt32 m.g3⟩

/-- `int32_t Det = ((int64_t) G[0] * G[3] - G[1] * G[2]) / subpixel_factor`
(line 163 of lucas_kanade.c): the first product is widened to 64 bits, the
second stays in 32-bit arithmetic, the quotient (C division truncates
toward zero) is stored back into an `int32_t`. -/
def detComp (m : GMat) (sf : Nat) : Int :=
  toInt32 (Int.tdiv (m.g0 * m.g3 - toInt32 (m.g1 * m.g2)) (sf : Int))

/-- One tracked vector (`struct flow_t`): subpixel position and flow.
`pid` is ghost provenance: the index of the input point whose processing
last (re)initialized this slot; it is inert in all computations and only
records data lineage through the in-place compaction. -/
structure FlowVec where
  pid : Nat
  posx : Int
  posy : Int
  flowx : Int
  flowy : Int
deriving DecidableEq

/-- Value returned when reading a vector slot out of range (never happens
on reachable states, see the level-count invariants). -/
def dfltFV : FlowVec := ⟨0, 0, 0, 0, 0⟩

/-- The external collaborators of `opticFlowLK`, as oracles. -/
structure LKEnv where
  wl : Nat → Nat
  hl : Nat → Nat
  gmat : Nat → Int × Int → GMat
  errf : Nat → Int × Int → Int × Int → Nat
  bxf : Nat → Int × Int → Int × Int → Int
  byf : Nat → Int × Int → Int × Int → Int

/-- The scalar parameters of one `opticFlowLK` call. -/
structure LKParams where
  points : List (Nat × Nat)
  pointsCnt : Nat
  halfWindowSize : Nat
  subpixelFactor : Nat
  maxIterations : Nat
  stepThreshold : Nat
  maxPoints : Nat
  pyramidLevel : Nat

/-- The coarsest-level region-of-interest check on an input point
(lines 131-132): the finest-resolution coordinate is compared against the
current (coarsest) pyramid level's dimensions. -/
def roiFailInit (env : LKEnv) (P : LKParams) (lvl : Nat) (px py : Nat) : Bool :=
  decide ((px : Int) < (P.halfWindowSize : Int)) ||
  decide ((env.wl lvl : Int) - (px : Int) < (P.halfWindowSize : Int)) ||
  decide ((py : Int) < (P.halfWindowSize : Int)) ||
  decide ((env.hl lvl : Int) - (py : Int) < (P.halfWindowSize : Int))

/-- The per-iteration region-of-interest check on the candidate position
(lines 179-180): the candidate, divided down to pixels by the subpixel
factor, is compared against the current pyramid level's dimensions. -/
def roiFailIter (env : LKEnv) (P : LKParams) (lvl : Nat) (c : Int × Int) : Bool :=
  decide (Int.tdiv c.1 (P.subpixelFactor : Int) < (P.halfWindowSize : Int)) ||
  decide ((env.wl lvl : Int) - Int.tdiv c.1 (P.subpixelFactor : Int) < (P.halfWindowSize : Int)) ||
  decide (Int.tdiv c.2 (P.subpixelFactor : Int) < (P.halfWindowSize : Int)) ||
  decide ((env.hl lvl : Int) - Int.tdiv c.2 (P.subpixelFactor : Int) < (P.halfWindowSize : Int))

/-- The `uint32_t error` returned by `image_difference` (line 190). -/
def err32 (env : LKEnv) (lvl : Nat) (rp np : Int × Int) : Nat :=
  env.errf lvl rp np % 4294967296

/-- The finer-level warm start (lines 146-149): position and flow of the
slot being processed are doubled in place. -/
def dblFV (v : FlowVec) : FlowVec :=
  ⟨v.pid, 2 * v.posx, 2 * v.posy, 2 * v.flowx, 2 * v.flowy⟩

/-- Outcome of one body of the refinement loop: continue iterating,
break with the point still tracked (convergence), or break with the
point untracked (rejection). -/
inductive IterOut where
  | next (v : FlowVec)
  | stopTracked (v : FlowVec)
  | stopRejected (v : FlowVec)
deriving DecidableEq

/-- The vector carried by an `IterOut`. -/
def IterOut.vec : IterOut → FlowVec
  | .next v => v
  | .stopTracked v => v
  | .stopRejected v => v

/-- One body of the Gauss-Newton refinement loop (lines 176-212):
candidate = position + flow, ROI check, window-difference error with its
early-exit test, mismatch vector `b` (each reduction divided by 255),
closed-form 2x2 solve for the step (all in `int32_t` arithmetic, C
division truncating toward zero), flow accumulation, and the convergence
test on `|step_x| + |step_y|`. -/
def refineIter (env : LKEnv) (P : LKParams) (lvl : Nat) (rp : Int × Int)
    (m : GMat) (det : Int) (it : Nat) (v : FlowVec) : IterOut :=
  let np : Int × Int := (v.posx + v.flowx, v.posy + v.flowy)
  if roiFailIter env P lvl np then .stopRejected v
  else if err32 env lvl rp np > errorThreshold P.halfWindowSize ∧
      it > P.maxIterations / 2 then .stopRejected v
  else
    let bx := Int.tdiv (toInt32 (env.bxf lvl rp np)) 255
    let bY := Int.tdiv (toInt32 (env.byf lvl rp np)) 255
    let sx := Int.tdiv (toInt32 (toInt32 (m.g3 * bx) - toInt32 (m.g1 * bY))) det
    let sy := Int.tdiv (toInt32 (toInt32 (m.g0 * bY) - toInt32 (m.g2 * bx))) det
    let v2 : FlowVec := { v with flowx := v.flowx + sx, flowy := v.flowy + sy }
    if sx.natAbs + sy.natAbs < P.stepThreshold then .stopTracked v2 else .next v2

/-- The refinement loop `for (it = 0; it < max_iterations; it++)`
(line 175), with fuel = remaining iterations.  Returns the final vector,
the `tracked` flag, and the number of loop bodies actually entered.
Exhausting the fuel leaves `tracked = TRUE`. -/
def refineLoop (env : LKEnv) (P : LKParams) (lvl : Nat) (rp : Int × Int)
    (m : GMat) (det : Int) : Nat → Nat → FlowVec → FlowVec × Bool × Nat
  | 0, _, v => (v, true, 0)
  | fuel + 1, it, v =>
    match refineIter env P lvl rp m det it v with
    | .stopRejected v2 => (v2, false, 1)
    | .stopTracked v2 => (v2, true, 1)
    | .next v2 =>
      let r := refineLoop env P lvl rp m det fuel (it + 1) v2
      (r.1, r.2.1, r.2.2 + 1)

/-- State of the per-level point loop: the vector array, the compacted
index `new_p`, the survivor count `*points_cnt`, plus two ghost logs:
the input-point indices rejected so far (whole call) and, for levels
finer than the coarsest, the slot values read (before doubling) as the
seed of each processing. -/
structure LoopState where
  vecs : List FlowVec
  newP : Nat
  cnt : Nat
  rejected : List Nat
  seeds : List (Nat × FlowVec)
deriving DecidableEq

/-- Lines 152-219: given the (re)initialized vector `v0` for slot `new_p`,
store it, compute the G-matrix and determinant at its position, reject if
`Det < 1`, otherwise run the refinement loop and, if the point remained
tracked, advance `new_p` and the survivor count. -/
def trackFrom (env : LKEnv) (P : LKParams) (lvl : Nat) (v0 : FlowVec)
    (s : LoopState) : LoopState :=
  let vecs1 := s.vecs.set s.newP v0
  let rp : Int × Int := (v0.posx, v0.posy)
  let m := normG (env.gmat lvl rp)
  let det := detComp m P.subpixelFactor
  if det < 1 then
    { s with vecs := vecs1, rejected := s.rejected ++ [v0.pid] }
  else
    let r := refineLoop env P lvl rp m det P.maxIterations 0 v0
    let vecs2 := vecs1.set s.newP r.1
    if r.2.1 then
      { s with vecs := vecs2, newP := s.newP + 1, cnt := s.cnt + 1 }
    else
      { s with vecs := vecs2, rejected := s.rejected ++ [v0.pid] }

/-- One body of the per-level point loop (lines 123-220), at loop index
`i`.  At the coarsest level (`coarsest = true`) the input point `i` is
ROI-checked and, if accepted, slot `new_p` is initialized from its pixel
coordinate scaled by `subpixel_factor / exp`; at finer levels slot
`new_p` is read back and doubled.  Note the C loop iterates `i` over the
original per-level count while addressing slot `new_p`, so after a
rejection the same slot is read (and doubled) again. -/
def procOne (env : LKEnv) (P : LKParams) (lvl : Nat) (coarsest : Bool)
    (expv : Nat) (s : LoopState) (i : Nat) : LoopState :=
  if coarsest then
    let pt := P.points.getD i (0, 0)
    if roiFailInit env P lvl pt.1 pt.2 then
      { s with rejected := s.rejected ++ [i] }
    else
      trackFrom env P lvl
        ⟨i, ((pt.1 * P.subpixelFactor / expv : Nat) : Int),
            ((pt.2 * P.subpixelFactor / expv : Nat) : Int), 0, 0⟩ s
  else
    let v := s.vecs.getD s.newP dfltFV
    trackFrom env P lvl (dblFV v) { s with seeds := s.seeds ++ [(lvl, v)] }

/-- One pyramid level (lines 111-220): `points_orig = *points_cnt`,
`*points_cnt = 0`, `new_p = 0`, then the point loop for
`i < max_points && i < points_orig`. -/
def runLevel (env : LKEnv) (P : LKParams) (lvl : Nat) (coarsest : Bool)
    (expv : Nat) (vecs : List FlowVec) (cntIn : Nat) (rej : List Nat)
    (sds : List (Nat × FlowVec)) : LoopState :=
  (List.range (min P.maxPoints cntIn)).foldl (procOne env P lvl coarsest expv)
    ⟨vecs, 0, 0, rej, sds⟩

/-- Whole-call state between pyramid levels; `history` records the
survivor count reported at each completed level, most recent level
first. -/
structure CallState where
  vecs : List FlowVec
  cnt : Nat
  rejected : List Nat
  seeds : List (Nat × FlowVec)
  history : List Nat
deriving DecidableEq

/-- Run one pyramid level from a whole-call state.  The level is treated
as coarsest exactly when `LVL == pyramid_level` (line 128). -/
def runLevelStep (env : LKEnv) (P : LKParams) (expv : Nat) (cs : CallState)
    (lvl : Nat) : CallState :=
  let ls := runLevel env P lvl (lvl == P.pyramidLevel) expv cs.vecs cs.cnt
    cs.rejected cs.seeds
  ⟨ls.vecs, ls.cnt, ls.rejected, ls.seeds, ls.cnt :: cs.history⟩

/-- The level loop `for (LVL = pyramid_level; LVL != -1; LVL--)`
(line 111). -/
def runLevelsRec (env : LKEnv) (P : LKParams) (expv : Nat) :
    Nat → CallState → CallState
  | 0, cs => runLevelStep env P expv cs 0
  | l + 1, cs => runLevelsRec env P expv l (runLevelStep env P expv cs (l + 1))

/-- The `malloc`ed vector array before any write.  Uninitialized slots are
modelled with sentinel provenance ids `pointsCnt + slot`, distinct from
every input point index, so that data from a never-written slot is
distinguishable; the numeric fields of unwritten slots are never read by
reachable computations. -/
def initVecs (P : LKParams) : List FlowVec :=
  (List.range P.maxPoints).map (fun j => ⟨P.pointsCnt + j, 0, 0, 0, 0⟩)

/-- The whole-call state on entry: `*points_cnt` as passed in, no level
processed yet. -/
def initState (P : LKParams) : CallState :=
  ⟨initVecs P, P.pointsCnt, [], [], []⟩

/-- The complete `opticFlowLK` call: compute the `uint8_t` divisor `exp`,
then run the levels from `pyramid_level` down to `0`. -/
def opticFlowLK (env : LKEnv) (P : LKParams) : CallState :=
  runLevelsRec env P (expComp P.pyramidLevel) P.pyramidLevel (initState P)

/-- The vectors the caller receives: the first `*points_cnt` entries of
the returned array. -/
def outputVecs (env : LKEnv) (P : LKParams) : List FlowVec :=
  ((opticFlowLK env P).vecs).take (opticFlowLK env P).cnt

/-- Provenance ids of the output vectors. -/
def outputIds (env : LKEnv) (P : LKParams) : List Nat :=
  (outputVecs env P).map FlowVec.pid

/-- The survivor array right after the coarsest level: the estimates that
are carried over into the first finer level. -/
def survivorsAfterCoarsest (env : LKEnv) (P : LKParams) : List FlowVec :=
  let cs := runLevelStep env P (expComp P.pyramidLevel) (initState P) P.pyramidLevel
  cs.vecs.take cs.cnt

/-- The refinement-loop call made by `trackFrom` for a seed `v0`. -/
def refinedAt (env : LKEnv) (P : LKParams) (lvl : Nat) (v0 : FlowVec) :
    FlowVec × Bool × Nat :=
  refineLoop env P lvl (v0.posx, v0.posy) (normG (env.gmat lvl (v0.posx, v0.posy)))
    (detComp (normG (env.gmat lvl (v0.posx, v0.posy))) P.subpixelFactor)
    P.maxIterations 0 v0

/-- The spec's mismatch-vector component `b_x = (Σ diff·Ix) / 255`
(§4.4 step 6), written in exact integer arithmetic; to be compared with
the `int32_t` computation inside `refineIter`. -/
def specBx (env : LKEnv) (lvl : Nat) (rp np : Int × Int) : Int :=
  Int.tdiv (env.bxf lvl rp np) 255

/-- The spec's mismatch-vector component `b_y = (Σ diff·Iy) / 255`
(§4.4 step 6), in exact integer arithmetic. -/
def specBy (env : LKEnv) (lvl : Nat) (rp np : Int × Int) : Int :=
  Int.tdiv (env.byf lvl rp np) 255

/-- The spec's update step `step_x = (G11·b_x − G01·b_y)/Det`
(§4.4 step 7), in exact integer arithmetic. -/
def specStepX (env : LKEnv) (lvl : Nat) (rp np : Int × Int) (m : GMat) (det : Int) : Int :=
  Int.tdiv (m.g3 * specBx env lvl rp np - m.g1 * specBy env lvl rp np) det

/-- The spec's update step `step_y = (G00·b_y − G10·b_x)/Det`
(§4.4 step 7), in exact integer arithmetic. -/
def specStepY (env : LKEnv) (lvl : Nat) (rp np : Int × Int) (m : GMat) (det : Int) : Int :=
  Int.tdiv (m.g0 * specBy env lvl rp np - m.g2 * specBx env lvl rp np) det

/-- No vector in the array carries provenance id `i`. -/
def PidFreeL (l : List FlowVec) (i : Nat) : Prop := ∀ v ∈ l, v.pid ≠ i

/-- Invariant of the whole-call state over the level loop: the recorded
per-level survivor counts (most recent first) form a nondecreasing chain
toward the older entries, every recorded count is bounded by `max_points`
and by the input count, the running count is bounded by the input count,
and the newest recorded count equals the running count. -/
def HistInv (P : LKParams) (cs : CallState) : Prop :=
  List.Chain' (fun a b => a ≤ b) cs.history ∧
  (∀ c ∈ cs.history, c ≤ P.maxPoints ∧ c ≤ P.pointsCnt) ∧
  cs.cnt ≤ P.pointsCnt ∧
  (∀ b ∈ cs.history.head?, cs.cnt ≤ b)

/-! ### Concrete environments and parameter sets used by witnesses and
counterexamples -/

/-- 100x100 images at every level; the G-matrix is degenerate exactly at
level 0, position (10,10), and the identity otherwise; errors and
reductions are zero. -/
def envA : LKEnv :=
  { wl := fun _ => 100, hl := fun _ => 100,
    gmat := fun lvl p => if lvl = 0 ∧ p = (10, 10) then ⟨0, 0, 0, 0⟩ else ⟨1, 0, 0, 1⟩,
    errf := fun _ _ _ => 0, bxf := fun _ _ _ => 0, byf := fun _ _ _ => 0 }

/-- Two points, one pyramid level above the finest, subpixel factor 1,
one refinement iteration per point and level. -/
def PA : LKParams := ⟨[(10, 10), (12, 12)], 2, 1, 1, 1, 1, 2, 1⟩

/-- 100x100 images, all-zero G-matrix and reductions. -/
def envZ : LKEnv :=
  ⟨fun _ => 100, fun _ => 100, fun _ _ => ⟨0, 0, 0, 0⟩,
   fun _ _ _ => 0, fun _ _ _ => 0, fun _ _ _ => 0⟩

/-- 100x100 images, identity G-matrix, zero error and reductions. -/
def envI : LKEnv :=
  ⟨fun _ => 100, fun _ => 100, fun _ _ => ⟨1, 0, 0, 1⟩,
   fun _ _ _ => 0, fun _ _ _ => 0, fun _ _ _ => 0⟩

/-- 100x100 images, identity G-matrix, constant window-difference error
10000, zero reductions. -/
def env5 : LKEnv :=
  ⟨fun _ => 100, fun _ => 100, fun _ _ => ⟨1, 0, 0, 1⟩,
   fun _ _ _ => 10000, fun _ _ _ => 0, fun _ _ _ => 0⟩

/-- Zero-size images: every candidate fails the ROI check. -/
def envB : LKEnv :=
  ⟨fun _ => 0, fun _ => 0, fun _ _ => ⟨1, 0, 0, 1⟩,
   fun _ _ _ => 0, fun _ _ _ => 0, fun _ _ _ => 0⟩

/-- Parameters with `max_iterations = 2` (an even iteration budget). -/
def P5 : LKParams := ⟨[], 0, 1, 1, 2, 1, 0, 0⟩

/-- One point, single level, one iteration. -/
def PW : LKParams := ⟨[(10, 10)], 1, 1, 1, 1, 1, 1, 0⟩

/-- One point, subpixel factor 4, two pyramid levels above the finest. -/
def P8 : LKParams := ⟨[(10, 10)], 1, 1, 4, 1, 1, 1, 2⟩

/-- One point sitting on the left image border. -/
def P9 : LKParams := ⟨[(0, 5)], 1, 1, 1, 1, 1, 1, 1⟩

/-- A sample state of the per-level loop with a one-slot array. -/
def sW : LoopState := ⟨[dfltFV], 0, 0, [], []⟩

/-- A sample tracked vector. -/
def vW : FlowVec := ⟨0, 5, 5, 0, 0⟩

/-- A sample carried-over survivor array. -/
def vecsW : List FlowVec := [⟨0, 5, 5, 0, 0⟩, ⟨1, 6, 6, 0, 0⟩]

/-! ## Auxiliary lemmas -/

theorem toInt32_eq_self {z : Int} (h : z.natAbs ≤ 2147483647) : toInt32 z = z := by
  unfold toInt32
  have h1 : 0 ≤ z + 2147483648 := by omega
  have h2 : z + 2147483648 < 4294967296 := by omega
  rw [Int.emod_eq_of_lt h1 h2]
  omega

theorem append_eq_self_nil {α : Type} {l t : List α} (h : l ++ t = l) : t = [] := by
  simpa using congrArg List.length h

theorem listGetD_set_ne {α : Type} (d w : α) :
    ∀ (l : List α) (i j : Nat), i ≠ j → (l.set i w).getD j d = l.getD j d := by
  intro l
  induction l with
  | nil => intro i j _; rfl
  | cons a t ih =>
    intro i j hij
    cases i with
    | zero =>
      cases j with
      | zero => exact absurd rfl hij
      | succ j => simp [List.set]
    | succ i =>
      cases j with
      | zero => simp [List.set]
      | succ j => simpa [List.set] using ih i j (by omega)

theorem listGetD_mem {α : Type} (d : α) :
    ∀ (l : List α) (j : Nat), j < l.length → l.getD j d ∈ l := by
  intro l
  induction l with
  | nil => intro j h; simp at h
  | cons a t ih =>
    intro j h
    cases j with
    | zero => simp
    | succ j =>
      simp only [List.getD_cons_succ]
      exact List.mem_cons_of_mem a (ih j (by simpa using h))

theorem listSet_of_len_le {α : Type} (w : α) :
    ∀ (l : List α) (k : Nat), l.length ≤ k → l.set k w = l := by
  intro l
  induction l with
  | nil => intro k _; rfl
  | cons a t ih =>
    intro k h
    cases k with
    | zero => simp at h
    | succ k => simpa [List.set] using ih k (by simpa using h)

theorem refineIter_vec_pid (env : LKEnv) (P : LKParams) (lvl : Nat) (rp : Int × Int)
    (m : GMat) (det : Int) (it : Nat) (v : FlowVec) :
    (refineIter env P lvl rp m det it v).vec.pid = v.pid := by
  simp only [refineIter]
  split
  · rfl
  · split
    · rfl
    · split <;> rfl

theorem refineLoop_vec_pid (env : LKEnv) (P : LKParams) (lvl : Nat) (rp : Int × Int)
    (m : GMat) (det : Int) :
    ∀ (fuel it : Nat) (v : FlowVec),
      (refineLoop env P lvl rp m det fuel it v).1.pid = v.pid := by
  intro fuel
  induction fuel with
  | zero => intro it v; rfl
  | succ fuel ih =>
    intro it v
    have hv := refineIter_vec_pid env P lvl rp m det it v
    simp only [refineLoop]
    cases h : refineIter env P lvl rp m det it v with
    | stopRejected v2 => rw [h] at hv; exact hv
    | stopTracked v2 => rw [h] at hv; exact hv
    | next v2 =>
      rw [h] at hv
      simpa using (ih (it + 1) v2).trans hv

theorem refineLoop_iters_le (env : LKEnv) (P : LKParams) (lvl : Nat) (rp : Int × Int)
    (m : GMat) (det : Int) :
    ∀ (fuel it : Nat) (v : FlowVec),
      (refineLoop env P lvl rp m det fuel it v).2.2 ≤ fuel := by
  intro fuel
  induction fuel with
  | zero => intro it v; exact Nat.le_refl 0
  | succ fuel ih =>
    intro it v
    simp only [refineLoop]
    cases refineIter env P lvl rp m det it v with
    | stopRejected v2 => simp
    | stopTracked v2 => simp
    | next v2 => simpa using ih (it + 1) v2

theorem trackFrom_rejected_cases (env : LKEnv) (P : LKParams) (lvl : Nat)
    (v0 : FlowVec) (s : LoopState) :
    (trackFrom env P lvl v0 s).rejected = s.rejected ∨
    (trackFrom env P lvl v0 s).rejected = s.rejected ++ [v0.pid] := by
  simp only [trackFrom]
  split
  · exact Or.inr rfl
  · split
    · exact Or.inl rfl
    · exact Or.inr rfl

theorem trackFrom_rejected_extend (env : LKEnv) (P : LKParams) (lvl : Nat)
    (v0 : FlowVec) (s : LoopState) :
    ∃ t, (trackFrom env P lvl v0 s).rejected = s.rejected ++ t := by
  rcases trackFrom_rejected_cases env P lvl v0 s with h | h
  · exact ⟨[], by simp [h]⟩
  · exact ⟨[v0.pid], h⟩

theorem trackFrom_of_rejected_eq (env : LKEnv) (P : LKParams) (lvl : Nat)
    (v0 : FlowVec) (s : LoopState)
    (h : (trackFrom env P lvl v0 s).rejected = s.rejected) :
    trackFrom env P lvl v0 s =
      { s with
        vecs := (s.vecs.set s.newP v0).set s.newP
          (refineLoop env P lvl (v0.posx, v0.posy)
            (normG (env.gmat lvl (v0.posx, v0.posy)))
            (detComp (normG (env.gmat lvl (v0.posx, v0.posy))) P.subpixelFactor)
            P.maxIterations 0 v0).1,
        newP := s.newP + 1, cnt := s.cnt + 1 } := by
  revert h
  simp only [trackFrom]
  split
  · intro h; exact absurd (append_eq_self_nil h) (by simp)
  · split
    · intro _; rfl
    · intro h; exact absurd (append_eq_self_nil h) (by simp)

theorem trackFrom_cnt_le (env : LKEnv) (P : LKParams) (lvl : Nat)
    (v0 : FlowVec) (s : LoopState) :
    (trackFrom env P lvl v0 s).cnt ≤ s.cnt + 1 := by
  simp only [trackFrom]
  split
  · exact Nat.le_succ _
  · split
    · exact Nat.le_refl _
    · exact Nat.le_succ _

theorem trackFrom_vecs_of_len_le (env : LKEnv) (P : LKParams) (lvl : Nat)
    (v0 : FlowVec) (s : LoopState) (h : s.vecs.length ≤ s.newP) :
    (trackFrom env P lvl v0 s).vecs = s.vecs := by
  simp only [trackFrom]
  split
  · exact listSet_of_len_le v0 s.vecs s.newP h
  · split <;>
      rw [listSet_of_len_le v0 s.vecs s.newP h] <;>
      exact listSet_of_len_le _ s.vecs s.newP h

theorem procOne_rejected_extend (env : LKEnv) (P : LKParams) (lvl : Nat)
    (c : Bool) (e : Nat) (s : LoopState) (i : Nat) :
    ∃ t, (procOne env P lvl c e s i).rejected = s.rejected ++ t := by
  simp only [procOne]
  split
  · split
    · exact ⟨[i], rfl⟩
    · exact trackFrom_rejected_extend env P lvl _ s
  · exact trackFrom_rejected_extend env P lvl _ _

theorem procOne_cnt_le (env : LKEnv) (P : LKParams) (lvl : Nat)
    (c : Bool) (e : Nat) (s : LoopState) (i : Nat) :
    (procOne env P lvl c e s i).cnt ≤ s.cnt + 1 := by
  simp only [procOne]
  split
  · split
    · exact Nat.le_succ _
    · exact trackFrom_cnt_le env P lvl _ s
  · exact trackFrom_cnt_le env P lvl _ _

theorem foldl_rejected_extend (env : LKEnv) (P : LKParams) (lvl : Nat)
    (c : Bool) (e : Nat) :
    ∀ (l : List Nat) (s : LoopState),
      ∃ t, ((l.foldl (procOne env P lvl c e) s).rejected = s.rejected ++ t) := by
  intro l
  induction l with
  | nil => intro s; exact ⟨[], by simp⟩
  | cons a tl ih =>
    intro s
    obtain ⟨u, hu⟩ := procOne_rejected_extend env P lvl c e s a
    obtain ⟨t, ht⟩ := ih (procOne env P lvl c e s a)
    exact ⟨u ++ t, by rw [List.foldl_cons, ht, hu, List.append_assoc]⟩

theorem foldl_cnt_le (env : LKEnv) (P : LKParams) (lvl : Nat) (c : Bool) (e : Nat) :
    ∀ (l : List Nat) (s : LoopState),
      (l.foldl (procOne env P lvl c e) s).cnt ≤ s.cnt + l.length := by
  intro l
  induction l with
  | nil => intro s; simp
  | cons a tl ih =>
    intro s
    have h1 := procOne_cnt_le env P lvl c e s a
    have h2 := ih (procOne env P lvl c e s a)
    rw [List.foldl_cons]
    simp only [List.length_cons]
    omega

theorem pidfree_set {l : List FlowVec} {i : Nat} (h : PidFreeL l i)
    {w : FlowVec} (hw : w.pid ≠ i) (k : Nat) : PidFreeL (l.set k w) i := by
  intro v hv
  rcases List.mem_or_eq_of_mem_set hv with h1 | rfl
  · exact h v h1
  · exact hw

theorem trackFrom_pidfree (env : LKEnv) (P : LKParams) (lvl : Nat)
    {v0 : FlowVec} {s : LoopState} {i : Nat}
    (hs : PidFreeL s.vecs i) (h0 : v0.pid ≠ i) :
    PidFreeL (trackFrom env P lvl v0 s).vecs i := by
  simp only [trackFrom]
  split
  · exact pidfree_set hs h0 _
  · split
    · refine pidfree_set (pidfree_set hs h0 _) ?_ _
      rw [refineLoop_vec_pid]
      exact h0
    · refine pidfree_set (pidfree_set hs h0 _) ?_ _
      rw [refineLoop_vec_pid]
      exact h0

theorem procOne_pidfree (env : LKEnv) (P : LKParams) (lvl : Nat)
    (c : Bool) (e : Nat) (s : LoopState) (k : Nat) {i : Nat}
    (hc : c = true → k = i →
      roiFailInit env P lvl (P.points.getD k (0, 0)).1 (P.points.getD k (0, 0)).2 = true)
    (hs : PidFreeL s.vecs i) :
    PidFreeL (procOne env P lvl c e s k).vecs i := by
  simp only [procOne]
  split
  case isTrue hcond =>
    split
    case isTrue => exact hs
    case isFalse hroi =>
      refine trackFrom_pidfree env P lvl hs ?_
      intro hk
      exact hroi (hc hcond hk)
  case isFalse hcond =>
    by_cases hlen : s.newP < s.vecs.length
    · exact trackFrom_pidfree env P lvl hs
        (hs (s.vecs.getD s.newP dfltFV) (listGetD_mem dfltFV s.vecs s.newP hlen))
    · have hv : (trackFrom env P lvl (dblFV (s.vecs.getD s.newP dfltFV))
          { s with seeds := s.seeds ++ [(lvl, s.vecs.getD s.newP dfltFV)] }).vecs = s.vecs :=
        trackFrom_vecs_of_len_le env P lvl _ _ (by simpa using Nat.le_of_not_lt hlen)
      rw [hv]
      exact hs

theorem foldl_pidfree (env : LKEnv) (P : LKParams) (lvl : Nat) (c : Bool) (e : Nat) {i : Nat}
    (hc : c = true →
      roiFailInit env P lvl (P.points.getD i (0, 0)).1 (P.points.getD i (0, 0)).2 = true) :
    ∀ (l : List Nat) (s : LoopState), PidFreeL s.vecs i →
      PidFreeL ((l.foldl (procOne env P lvl c e) s).vecs) i := by
  intro l
  induction l with
  | nil => intro s hs; exact hs
  | cons a tl ih =>
    intro s hs
    rw [List.foldl_cons]
    refine ih _ (procOne_pidfree env P lvl c e s a ?_ hs)
    intro h1 h2
    exact h2 ▸ hc h1

theorem runLevel_pidfree (env : LKEnv) (P : LKParams) (lvl : Nat) (c : Bool) (e : Nat)
    (vecs : List FlowVec) (cntIn : Nat) (rej : List Nat) (sds : List (Nat × FlowVec)) {i : Nat}
    (hc : c = true →
      roiFailInit env P lvl (P.points.getD i (0, 0)).1 (P.points.getD i (0, 0)).2 = true)
    (hs : PidFreeL vecs i) :
    PidFreeL (runLevel env P lvl c e vecs cntIn rej sds).vecs i :=
  foldl_pidfree env P lvl c e hc _ _ hs

theorem runLevelStep_pidfree (env : LKEnv) (P : LKParams) (e : Nat)
    (cs : CallState) (lvl : Nat) {i : Nat}
    (hroi : roiFailInit env P P.pyramidLevel
      (P.points.getD i (0, 0)).1 (P.points.getD i (0, 0)).2 = true)
    (hs : PidFreeL cs.vecs i) :
    PidFreeL (runLevelStep env P e cs lvl).vecs i := by
  refine runLevel_pidfree env P lvl _ e cs.vecs cs.cnt cs.rejected cs.seeds ?_ hs
  intro hb
  have : lvl = P.pyramidLevel := by simpa using hb
  rw [this]
  exact hroi

theorem runLevelsRec_pidfree (env : LKEnv) (P : LKParams) (e : Nat) {i : Nat}
    (hroi : roiFailInit env P P.pyramidLevel
      (P.points.getD i (0, 0)).1 (P.points.getD i (0, 0)).2 = true) :
    ∀ (l : Nat) (cs : CallState), PidFreeL cs.vecs i →
      PidFreeL (runLevelsRec env P e l cs).vecs i := by
  intro l
  induction l with
  | zero => intro cs hs; exact runLevelStep_pidfree env P e cs 0 hroi hs
  | succ l ih =>
    intro cs hs
    exact ih _ (runLevelStep_pidfree env P e cs (l + 1) hroi hs)

theorem procOne_roi_rejects (env : LKEnv) (P : LKParams) (lvl : Nat) (e : Nat)
    (s : LoopState) (i : Nat)
    (h : roiFailInit env P lvl (P.points.getD i (0, 0)).1 (P.points.getD i (0, 0)).2 = true) :
    (procOne env P lvl true e s i).rejected = s.rejected ++ [i] := by
  simp only [procOne]
  rw [if_pos trivial, if_pos h]

theorem foldl_rejected_mem (env : LKEnv) (P : LKParams) (lvl : Nat) (e : Nat) {i : Nat}
    (h : roiFailInit env P lvl (P.points.getD i (0, 0)).1 (P.points.getD i (0, 0)).2 = true) :
    ∀ (l : List Nat) (s : LoopState), i ∈ l →
      i ∈ (l.foldl (procOne env P lvl true e) s).rejected := by
  intro l
  induction l with
  | nil => intro s hs; cases hs
  | cons a tl ih =>
    intro s hmem
    rcases List.mem_cons.mp hmem with rfl | hmem2
    · have h1 := procOne_roi_rejects env P lvl e s i h
      obtain ⟨t, ht⟩ := foldl_rejected_extend env P lvl true e tl (procOne env P lvl true e s i)
      rw [List.foldl_cons, ht, h1]
      simp
    · exact ih _ hmem2

theorem runLevelStep_rejected_extend (env : LKEnv) (P : LKParams) (e : Nat)
    (cs : CallState) (lvl : Nat) :
    ∃ t, (runLevelStep env P e cs lvl).rejected = cs.rejected ++ t :=
  foldl_rejected_extend env P lvl _ e _ _

theorem runLevelsRec_rejected_extend (env : LKEnv) (P : LKParams) (e : Nat) :
    ∀ (l : Nat) (cs : CallState),
      ∃ t, (runLevelsRec env P e l cs).rejected = cs.rejected ++ t := by
  intro l
  induction l with
  | zero => intro cs; exact runLevelStep_rejected_extend env P e cs 0
  | succ l ih =>
    intro cs
    obtain ⟨u, hu⟩ := runLevelStep_rejected_extend env P e cs (l + 1)
    obtain ⟨t, ht⟩ := ih (runLevelStep env P e cs (l + 1))
    exact ⟨u ++ t, by rw [runLevelsRec, ht, hu, List.append_assoc]⟩

theorem trackFrom_tracked_eq (env : LKEnv) (P : LKParams) (lvl : Nat)
    (v0 : FlowVec) (s : LoopState)
    (h : (trackFrom env P lvl v0 s).rejected = s.rejected) :
    trackFrom env P lvl v0 s =
      { s with
        vecs := (s.vecs.set s.newP v0).set s.newP (refinedAt env P lvl v0).1,
        newP := s.newP + 1, cnt := s.cnt + 1 } :=
  trackFrom_of_rejected_eq env P lvl v0 s h

theorem procOne_finer_eq (env : LKEnv) (P : LKParams) (lvl : Nat) (e : Nat)
    (s : LoopState) (k : Nat) :
    procOne env P lvl false e s k =
      trackFrom env P lvl (dblFV (s.vecs.getD s.newP dfltFV))
        { s with seeds := s.seeds ++ [(lvl, s.vecs.getD s.newP dfltFV)] } := by
  simp only [procOne]
  rw [if_neg Bool.false_ne_true]

theorem procOne_finer_of_rejected_eq (env : LKEnv) (P : LKParams) (lvl : Nat) (e : Nat)
    (s : LoopState) (k : Nat)
    (h : (procOne env P lvl false e s k).rejected = s.rejected) :
    procOne env P lvl false e s k =
      { s with
        vecs := (s.vecs.set s.newP (dblFV (s.vecs.getD s.newP dfltFV))).set s.newP
          (refinedAt env P lvl (dblFV (s.vecs.getD s.newP dfltFV))).1,
        newP := s.newP + 1, cnt := s.cnt + 1,
        seeds := s.seeds ++ [(lvl, s.vecs.getD s.newP dfltFV)] } := by
  rw [procOne_finer_eq] at h ⊢
  exact trackFrom_tracked_eq env P lvl _ _ h

theorem noRejFold (env : LKEnv) (P : LKParams) (lvl : Nat) (e : Nat) :
    ∀ (n : Nat) (vecs : List FlowVec) (rej : List Nat) (sds : List (Nat × FlowVec)),
      ((List.range n).foldl (procOne env P lvl false e) ⟨vecs, 0, 0, rej, sds⟩).rejected = rej →
      ((List.range n).foldl (procOne env P lvl false e) ⟨vecs, 0, 0, rej, sds⟩).newP = n ∧
      ((List.range n).foldl (procOne env P lvl false e) ⟨vecs, 0, 0, rej, sds⟩).cnt = n ∧
      ((List.range n).foldl (procOne env P lvl false e) ⟨vecs, 0, 0, rej, sds⟩).seeds =
        sds ++ (List.range n).map (fun k => (lvl, vecs.getD k dfltFV)) ∧
      ∀ k, n ≤ k →
        ((List.range n).foldl (procOne env P lvl false e)
            ⟨vecs, 0, 0, rej, sds⟩).vecs.getD k dfltFV = vecs.getD k dfltFV := by
  intro n
  induction n with
  | zero =>
    intro vecs rej sds _
    exact ⟨rfl, rfl, by simp, fun k _ => rfl⟩
  | succ n ih =>
    intro vecs rej sds h
    have hsplit : (List.range (n + 1)).foldl (procOne env P lvl false e)
          (⟨vecs, 0, 0, rej, sds⟩ : LoopState) =
        procOne env P lvl false e
          ((List.range n).foldl (procOne env P lvl false e) ⟨vecs, 0, 0, rej, sds⟩) n := by
      rw [List.range_succ, List.foldl_append, List.foldl_cons, List.foldl_nil]
    obtain ⟨t, htt⟩ :=
      foldl_rejected_extend env P lvl false e (List.range n) ⟨vecs, 0, 0, rej, sds⟩
    have htt2 : ((List.range n).foldl (procOne env P lvl false e)
        (⟨vecs, 0, 0, rej, sds⟩ : LoopState)).rejected = rej ++ t := htt
    obtain ⟨u, hu⟩ := procOne_rejected_extend env P lvl false e
      ((List.range n).foldl (procOne env P lvl false e) ⟨vecs, 0, 0, rej, sds⟩) n
    rw [hsplit] at h
    have hconc : rej ++ (t ++ u) = rej := by
      rw [← List.append_assoc, ← htt2, ← hu, h]
    have hnil := List.append_eq_nil.mp (append_eq_self_nil hconc)
    have hrejn : ((List.range n).foldl (procOne env P lvl false e)
        (⟨vecs, 0, 0, rej, sds⟩ : LoopState)).rejected = rej := by
      rw [htt2, hnil.1, List.append_nil]
    obtain ⟨h1, h2, h3, h4⟩ := ih vecs rej sds hrejn
    have hstep := procOne_finer_of_rejected_eq env P lvl e
      ((List.range n).foldl (procOne env P lvl false e) ⟨vecs, 0, 0, rej, sds⟩) n
      (by rw [h, hrejn])
    rw [hsplit, hstep]
    dsimp only
    refine ⟨by rw [h1], by rw [h2], ?_, ?_⟩
    · rw [h3, h1, h4 n (Nat.le_refl n), List.range_succ, List.map_append,
        List.append_assoc]
      rfl
    · intro k hk
      rw [h1]
      rw [listGetD_set_ne dfltFV _ _ n k (by omega), listGetD_set_ne dfltFV _ _ n k (by omega)]
      exact h4 k (by omega)

theorem runLevel_cnt_le (env : LKEnv) (P : LKParams) (lvl : Nat) (c : Bool) (e : Nat)
    (vecs : List FlowVec) (cntIn : Nat) (rej : List Nat) (sds : List (Nat × FlowVec)) :
    (runLevel env P lvl c e vecs cntIn rej sds).cnt ≤ min P.maxPoints cntIn := by
  have h := foldl_cnt_le env P lvl c e (List.range (min P.maxPoints cntIn))
    ⟨vecs, 0, 0, rej, sds⟩
  simpa [runLevel] using h

theorem runLevelStep_cnt_le (env : LKEnv) (P : LKParams) (e : Nat)
    (cs : CallState) (lvl : Nat) :
    (runLevelStep env P e cs lvl).cnt ≤ min P.maxPoints cs.cnt :=
  runLevel_cnt_le env P lvl _ e cs.vecs cs.cnt cs.rejected cs.seeds

theorem runLevelStep_histInv (env : LKEnv) (P : LKParams) (e : Nat)
    (cs : CallState) (lvl : Nat) (h : HistInv P cs) :
    HistInv P (runLevelStep env P e cs lvl) := by
  obtain ⟨hch, hmem, hcnt, hhd⟩ := h
  have hle := runLevelStep_cnt_le env P e cs lvl
  have hle1 : (runLevelStep env P e cs lvl).cnt ≤ P.maxPoints := by omega
  have hle2 : (runLevelStep env P e cs lvl).cnt ≤ cs.cnt := by omega
  have hhist : (runLevelStep env P e cs lvl).history =
      (runLevelStep env P e cs lvl).cnt :: cs.history := rfl
  refine ⟨?_, ?_, ?_, ?_⟩
  · rw [hhist, List.chain'_cons']
    exact ⟨fun y hy => Nat.le_trans hle2 (hhd y hy), hch⟩
  · rw [hhist]
    intro c hc
    rcases List.mem_cons.mp hc with rfl | hc2
    · exact ⟨hle1, Nat.le_trans hle2 hcnt⟩
    · exact hmem c hc2
  · exact Nat.le_trans hle2 hcnt
  · rw [hhist]
    intro b hb
    have : (runLevelStep env P e cs lvl).cnt = b := by
      simpa using hb
    omega

theorem runLevelsRec_histInv (env : LKEnv) (P : LKParams) (e : Nat) :
    ∀ (l : Nat) (cs : CallState), HistInv P cs →
      HistInv P (runLevelsRec env P e l cs) := by
  intro l
  induction l with
  | zero => intro cs h; exact runLevelStep_histInv env P e cs 0 h
  | succ l ih =>
    intro cs h
    exact ih _ (runLevelStep_histInv env P e cs (l + 1) h)

theorem specBx_def (env : LKEnv) (lvl : Nat) (rp np : Int × Int) :
    specBx env lvl rp np = Int.tdiv (env.bxf lvl rp np) 255 := rfl

theorem specBy_def (env : LKEnv) (lvl : Nat) (rp np : Int × Int) :
    specBy env lvl rp np = Int.tdiv (env.byf lvl rp np) 255 := rfl

theorem specStepX_def (env : LKEnv) (lvl : Nat) (rp np : Int × Int) (m : GMat) (det : Int) :
    specStepX env lvl rp np m det =
      Int.tdiv (m.g3 * specBx env lvl rp np - m.g1 * specBy env lvl rp np) det := rfl

theorem specStepY_def (env : LKEnv) (lvl : Nat) (rp np : Int × Int) (m : GMat) (det : Int) :
    specStepY env lvl rp np m det =
      Int.tdiv (m.g0 * specBy env lvl rp np - m.g2 * specBx env lvl rp np) det := rfl

/-! ## Claim theorems -/

/-- C10: the `uint8_t` divisor `exp` is computed by repeated doubling
modulo 256; for every `pyramid_level ≤ 7` it equals `2 ^ pyramid_level`
and is nonzero, so the coarsest-level position division is well defined,
while at `pyramid_level = 8` it wraps to 0 and the division used by
`opticFlowLK` (which always divides by `expComp pyramid_level`) divides
by zero. -/
theorem claim10_theorem :
    (∀ L, L ≤ 7 → expComp L = 2 ^ L ∧ expComp L ≠ 0) ∧ expComp 8 = 0 ∧
    (∀ (env : LKEnv) (P : LKParams),
      opticFlowLK env P =
        runLevelsRec env P (expComp P.pyramidLevel) P.pyramidLevel (initState P)) := by
  refine ⟨?_, by decide, fun env P => rfl⟩
  have h : ∀ L < 8, expComp L = 2 ^ L ∧ expComp L ≠ 0 := by decide
  intro L hL
  exact h L (by omega)

/-- C10 witness at `pyramid_level = 7` and `8`. -/
theorem claim10_witness :
    (expComp 7 = 2 ^ 7 ∧ expComp 7 ≠ 0) ∧ expComp 8 = 0 :=
  ⟨claim10_theorem.1 7 (by omega), claim10_theorem.2.1⟩

/-- C8: at the coarsest pyramid level, every point passing the ROI check
has its subpixel position initialized to its pixel coordinate times
`subpixel_factor` divided by `2 ^ pyramid_level` (integer division) and
its flow initialized to `(0, 0)`, provided `pyramid_level ≤ 7` (for
larger levels the `uint8_t` divisor wraps, see C10). -/
theorem claim8_theorem (env : LKEnv) (P : LKParams) (i : Nat) (s : LoopState)
    (h7 : P.pyramidLevel ≤ 7)
    (hroi : roiFailInit env P P.pyramidLevel (P.points.getD i (0, 0)).1
      (P.points.getD i (0, 0)).2 = false) :
    expComp P.pyramidLevel = 2 ^ P.pyramidLevel ∧
    procOne env P P.pyramidLevel true (expComp P.pyramidLevel) s i =
      trackFrom env P P.pyramidLevel
        ⟨i, (((P.points.getD i (0, 0)).1 * P.subpixelFactor / 2 ^ P.pyramidLevel : Nat) : Int),
            (((P.points.getD i (0, 0)).2 * P.subpixelFactor / 2 ^ P.pyramidLevel : Nat) : Int),
            0, 0⟩ s := by
  have he : expComp P.pyramidLevel = 2 ^ P.pyramidLevel := by
    have h : ∀ L < 8, expComp L = 2 ^ L := by decide
    exact h _ (by omega)
  refine ⟨he, ?_⟩
  simp only [procOne]
  rw [if_pos trivial, if_neg (by rw [hroi]; exact Bool.false_ne_true), he]

/-- C8 witness: point (10,10), subpixel factor 4, pyramid level 2. -/
theorem claim8_witness :
    expComp P8.pyramidLevel = 2 ^ P8.pyramidLevel ∧
    procOne envA P8 P8.pyramidLevel true (expComp P8.pyramidLevel) sW 0 =
      trackFrom envA P8 P8.pyramidLevel
        ⟨0, (((P8.points.getD 0 (0, 0)).1 * P8.subpixelFactor / 2 ^ P8.pyramidLevel : Nat) : Int),
            (((P8.points.getD 0 (0, 0)).2 * P8.subpixelFactor / 2 ^ P8.pyramidLevel : Nat) : Int),
            0, 0⟩ sW :=
  claim8_theorem envA P8 0 sW (by decide) (by decide)

/-- C5 (amended): in an iteration whose candidate passes the ROI check,
the point is rejected for a large residual exactly when the error exceeds
`625·patch_size²` AND the 0-based iteration index is strictly greater
than `max_iterations / 2` (integer division).  For an even iteration
budget, the iteration at exactly half the budget does NOT reject, which
corrects the claim's "at least half of maxIterations have elapsed". -/
theorem claim5_amended (env : LKEnv) (P : LKParams) (lvl : Nat) (rp : Int × Int)
    (m : GMat) (det : Int) (it : Nat) (v : FlowVec)
    (hroi : roiFailIter env P lvl (v.posx + v.flowx, v.posy + v.flowy) = false) :
    refineIter env P lvl rp m det it v = IterOut.stopRejected v ↔
      (err32 env lvl rp (v.posx + v.flowx, v.posy + v.flowy) >
        errorThreshold P.halfWindowSize ∧ it > P.maxIterations / 2) := by
  simp only [refineIter]
  rw [if_neg (by simp [hroi])]
  split
  case isTrue h => simp [h]
  case isFalse h =>
    constructor
    · intro hEq
      split at hEq <;> simp at hEq
    · intro hc
      exact absurd hc h

/-- C5 counterexample: with `max_iterations = 2`, at iteration index 1
(so 1 iteration has elapsed, which is at least half of 2) and an error of
10000 > 5625 = 625·3², the iteration does not reject the point - it
converges and keeps it tracked, contradicting the claim as stated. -/
theorem claim5_counterexample :
    refineIter env5 P5 0 (5, 5) ⟨1, 0, 0, 1⟩ 1 1 vW = IterOut.stopTracked vW ∧
    err32 env5 0 (5, 5) (vW.posx + vW.flowx, vW.posy + vW.flowy) >
      errorThreshold P5.halfWindowSize ∧
    P5.maxIterations ≤ 2 * 1 := by decide

/-- C5 witness: at iteration index 2 > 2/2 the same error rejects. -/
theorem claim5_witness :
    refineIter env5 P5 0 (5, 5) ⟨1, 0, 0, 1⟩ 1 2 vW = IterOut.stopRejected vW ↔
      (err32 env5 0 (5, 5) (vW.posx + vW.flowx, vW.posy + vW.flowy) >
        errorThreshold P5.halfWindowSize ∧ 2 > P5.maxIterations / 2) :=
  claim5_amended env5 P5 0 (5, 5) ⟨1, 0, 0, 1⟩ 1 2 vW (by decide)

/-- C4: at every refinement iteration the candidate is the current
position plus the current flow; if that candidate fails the ROI check at
the current level the loop breaks immediately with `tracked = FALSE` (the
returned vector is unchanged, exactly one loop body was entered), and
such a point does not advance the compacted index nor the survivor
count - it is excluded from the survivors and logged rejected. -/
theorem claim4_theorem (env : LKEnv) (P : LKParams) (lvl : Nat) :
    (∀ (rp : Int × Int) (m : GMat) (det : Int) (fuel it : Nat) (v : FlowVec),
      roiFailIter env P lvl (v.posx + v.flowx, v.posy + v.flowy) = true →
      refineLoop env P lvl rp m det (fuel + 1) it v = (v, false, 1)) ∧
    (∀ (v0 : FlowVec) (s : LoopState), 0 < P.maxIterations →
      roiFailIter env P lvl (v0.posx + v0.flowx, v0.posy + v0.flowy) = true →
      (trackFrom env P lvl v0 s).cnt = s.cnt ∧
      (trackFrom env P lvl v0 s).newP = s.newP ∧
      (trackFrom env P lvl v0 s).rejected = s.rejected ++ [v0.pid]) := by
  have hiter : ∀ (rp : Int × Int) (m : GMat) (det : Int) (it : Nat) (v : FlowVec),
      roiFailIter env P lvl (v.posx + v.flowx, v.posy + v.flowy) = true →
      refineIter env P lvl rp m det it v = IterOut.stopRejected v := by
    intro rp m det it v h
    simp only [refineIter]
    rw [if_pos h]
  have hloop : ∀ (rp : Int × Int) (m : GMat) (det : Int) (fuel it : Nat) (v : FlowVec),
      roiFailIter env P lvl (v.posx + v.flowx, v.posy + v.flowy) = true →
      refineLoop env P lvl rp m det (fuel + 1) it v = (v, false, 1) := by
    intro rp m det fuel it v h
    simp only [refineLoop]
    rw [hiter rp m det it v h]
  refine ⟨hloop, ?_⟩
  intro v0 s hmi hroi
  simp only [trackFrom]
  split
  · exact ⟨rfl, rfl, rfl⟩
  · obtain ⟨k, hk⟩ : ∃ k, P.maxIterations = k + 1 := ⟨P.maxIterations - 1, by omega⟩
    rw [hk, hloop _ _ _ k 0 v0 hroi]
    exact ⟨rfl, rfl, rfl⟩

/-- C4 witness: zero-size level images make the first candidate fail the
ROI check; the loop breaks untracked and the counts do not advance. -/
theorem claim4_witness :
    refineLoop envB PW 0 (0, 0) ⟨1, 0, 0, 1⟩ 1 (0 + 1) 0 dfltFV = (dfltFV, false, 1) ∧
    (trackFrom envB PW 0 dfltFV sW).cnt = sW.cnt ∧
    (trackFrom envB PW 0 dfltFV sW).newP = sW.newP ∧
    (trackFrom envB PW 0 dfltFV sW).rejected = sW.rejected ++ [dfltFV.pid] :=
  ⟨(claim4_theorem envB PW 0).1 (0, 0) ⟨1, 0, 0, 1⟩ 1 0 0 dfltFV (by decide),
   (claim4_theorem envB PW 0).2 dfltFV sW (by decide) (by decide)⟩

/-- C7: the refinement loop enters at most `max_iterations` bodies; a
converged iteration (step below threshold) stops the loop with the point
still tracked; exhausting the iteration budget returns the accumulated
flow with `tracked = TRUE`; and a refinement that ends tracked advances
the compacted index and survivor count. -/
theorem claim7_theorem (env : LKEnv) (P : LKParams) (lvl : Nat) :
    (∀ (rp : Int × Int) (m : GMat) (det : Int) (it : Nat) (v : FlowVec),
      (refineLoop env P lvl rp m det P.maxIterations it v).2.2 ≤ P.maxIterations) ∧
    (∀ (rp : Int × Int) (m : GMat) (det : Int) (fuel it : Nat) (v v2 : FlowVec),
      refineIter env P lvl rp m det it v = IterOut.stopTracked v2 →
      refineLoop env P lvl rp m det (fuel + 1) it v = (v2, true, 1)) ∧
    (∀ (rp : Int × Int) (m : GMat) (det : Int) (it : Nat) (v : FlowVec),
      refineLoop env P lvl rp m det 0 it v = (v, true, 0)) ∧
    (∀ (v0 : FlowVec) (s : LoopState),
      ¬ detComp (normG (env.gmat lvl (v0.posx, v0.posy))) P.subpixelFactor < 1 →
      (refinedAt env P lvl v0).2.1 = true →
      (trackFrom env P lvl v0 s).cnt = s.cnt + 1 ∧
      (trackFrom env P lvl v0 s).newP = s.newP + 1) := by
  refine ⟨fun rp m det it v => refineLoop_iters_le env P lvl rp m det P.maxIterations it v,
    ?_, fun rp m det it v => rfl, ?_⟩
  · intro rp m det fuel it v v2 h
    simp only [refineLoop]
    rw [h]
  · intro v0 s hdet htr
    simp only [refinedAt] at htr
    simp only [trackFrom]
    rw [if_neg hdet, if_pos htr]
    exact ⟨rfl, rfl⟩

/-- C7 witness: a zero step converges at once; the tracked point advances
the survivor count. -/
theorem claim7_witness :
    refineLoop envI PW 0 (5, 5) ⟨1, 0, 0, 1⟩ 1 (0 + 1) 0 vW = (vW, true, 1) ∧
    (trackFrom envI PW 0 vW sW).cnt = sW.cnt + 1 ∧
    (trackFrom envI PW 0 vW sW).newP = sW.newP + 1 :=
  ⟨(claim7_theorem envI PW 0).2.1 (5, 5) ⟨1, 0, 0, 1⟩ 1 0 0 vW vW (by decide),
   (claim7_theorem envI PW 0).2.2.2 vW sW (by decide) (by decide)⟩

/-- C6: in a non-rejected iteration the mismatch vector is
`b = (Σ diff·Ix / 255, Σ diff·Iy / 255)`, the step is the closed-form 2x2
solve `step_x = (G11·b_x − G01·b_y)/Det`, `step_y = (G00·b_y − G10·b_x)/Det`,
and the step is accumulated into the flow; the hypotheses bound the
intermediate `int32_t` products so that the fixed-point computation agrees
with the exact formulas. -/
theorem claim6_theorem (env : LKEnv) (P : LKParams) (lvl : Nat) (rp : Int × Int)
    (m : GMat) (det : Int) (it : Nat) (v : FlowVec)
    (hroi : roiFailIter env P lvl (v.posx + v.flowx, v.posy + v.flowy) = false)
    (herr : ¬ (err32 env lvl rp (v.posx + v.flowx, v.posy + v.flowy) >
      errorThreshold P.halfWindowSize ∧ it > P.maxIterations / 2))
    (hb1 : (env.bxf lvl rp (v.posx + v.flowx, v.posy + v.flowy)).natAbs ≤ 2147483647)
    (hb2 : (env.byf lvl rp (v.posx + v.flowx, v.posy + v.flowy)).natAbs ≤ 2147483647)
    (h3 : (m.g3 * specBx env lvl rp (v.posx + v.flowx, v.posy + v.flowy)).natAbs ≤ 2147483647)
    (h1 : (m.g1 * specBy env lvl rp (v.posx + v.flowx, v.posy + v.flowy)).natAbs ≤ 2147483647)
    (h0 : (m.g0 * specBy env lvl rp (v.posx + v.flowx, v.posy + v.flowy)).natAbs ≤ 2147483647)
    (h2 : (m.g2 * specBx env lvl rp (v.posx + v.flowx, v.posy + v.flowy)).natAbs ≤ 2147483647)
    (hk1 : (m.g3 * specBx env lvl rp (v.posx + v.flowx, v.posy + v.flowy) -
      m.g1 * specBy env lvl rp (v.posx + v.flowx, v.posy + v.flowy)).natAbs ≤ 2147483647)
    (hk2 : (m.g0 * specBy env lvl rp (v.posx + v.flowx, v.posy + v.flowy) -
      m.g2 * specBx env lvl rp (v.posx + v.flowx, v.posy + v.flowy)).natAbs ≤ 2147483647) :
    refineIter env P lvl rp m det it v =
      if (specStepX env lvl rp (v.posx + v.flowx, v.posy + v.flowy) m det).natAbs +
          (specStepY env lvl rp (v.posx + v.flowx, v.posy + v.flowy) m det).natAbs <
          P.stepThreshold
      then IterOut.stopTracked { v with
        flowx := v.flowx + specStepX env lvl rp (v.posx + v.flowx, v.posy + v.flowy) m det,
        flowy := v.flowy + specStepY env lvl rp (v.posx + v.flowx, v.posy + v.flowy) m det }
      else IterOut.next { v with
        flowx := v.flowx + specStepX env lvl rp (v.posx + v.flowx, v.posy + v.flowy) m det,
        flowy := v.flowy + specStepY env lvl rp (v.posx + v.flowx, v.posy + v.flowy) m det } := by
  simp only [refineIter]
  rw [if_neg (by rw [hroi]; exact Bool.false_ne_true), if_neg herr]
  rw [toInt32_eq_self hb1, toInt32_eq_self hb2]
  rw [← specBx_def env lvl rp (v.posx + v.flowx, v.posy + v.flowy),
    ← specBy_def env lvl rp (v.posx + v.flowx, v.posy + v.flowy)]
  rw [toInt32_eq_self h3, toInt32_eq_self h1, toInt32_eq_self h0, toInt32_eq_self h2]
  rw [toInt32_eq_self hk1, toInt32_eq_self hk2]
  rw [← specStepX_def env lvl rp (v.posx + v.flowx, v.posy + v.flowy) m det,
    ← specStepY_def env lvl rp (v.posx + v.flowx, v.posy + v.flowy) m det]

/-- C6 witness: identity G-matrix, zero reductions, zero step. -/
theorem claim6_witness :
    refineIter envI PW 0 (5, 5) ⟨1, 0, 0, 1⟩ 1 0 vW =
      if (specStepX envI 0 (5, 5) (vW.posx + vW.flowx, vW.posy + vW.flowy) ⟨1, 0, 0, 1⟩ 1).natAbs +
          (specStepY envI 0 (5, 5) (vW.posx + vW.flowx, vW.posy + vW.flowy) ⟨1, 0, 0, 1⟩ 1).natAbs <
          PW.stepThreshold
      then IterOut.stopTracked { vW with
        flowx := vW.flowx + specStepX envI 0 (5, 5) (vW.posx + vW.flowx, vW.posy + vW.flowy) ⟨1, 0, 0, 1⟩ 1,
        flowy := vW.flowy + specStepY envI 0 (5, 5) (vW.posx + vW.flowx, vW.posy + vW.flowy) ⟨1, 0, 0, 1⟩ 1 }
      else IterOut.next { vW with
        flowx := vW.flowx + specStepX envI 0 (5, 5) (vW.posx + vW.flowx, vW.posy + vW.flowy) ⟨1, 0, 0, 1⟩ 1,
        flowy := vW.flowy + specStepY envI 0 (5, 5) (vW.posx + vW.flowx, vW.posy + vW.flowy) ⟨1, 0, 0, 1⟩ 1 } :=
  claim6_theorem envI PW 0 (5, 5) ⟨1, 0, 0, 1⟩ 1 0 vW (by decide) (by decide) (by decide)
    (by decide) (by decide) (by decide) (by decide) (by decide) (by decide) (by decide)

/-- C3 (amended): the degeneracy scalar is
`toInt32 ((G00·G11 − toInt32(G01·G10)) / subpixel_factor)` - the second
product wraps in 32-bit arithmetic and the quotient is truncated back to
`int32_t` - and it agrees with the claim's exact
`(G00·G11 − G01·G10)/subpixelFactor` whenever `G01·G10` and the quotient
fit in 32 bits.  The point is rejected at the determinant stage (slot
written, no refinement, index and count not advanced) exactly when this
computed scalar is below 1; when it is at least 1 the processing proceeds
to the refinement loop. -/
theorem claim3_amended (env : LKEnv) (P : LKParams) :
    (∀ (m : GMat) (sf : Nat),
      (m.g1 * m.g2).natAbs ≤ 2147483647 →
      (Int.tdiv (m.g0 * m.g3 - m.g1 * m.g2) (sf : Int)).natAbs ≤ 2147483647 →
      detComp m sf = Int.tdiv (m.g0 * m.g3 - m.g1 * m.g2) (sf : Int)) ∧
    (∀ (lvl : Nat) (v0 : FlowVec) (s : LoopState),
      detComp (normG (env.gmat lvl (v0.posx, v0.posy))) P.subpixelFactor < 1 →
      trackFrom env P lvl v0 s =
        { s with vecs := s.vecs.set s.newP v0, rejected := s.rejected ++ [v0.pid] }) ∧
    (∀ (lvl : Nat) (v0 : FlowVec) (s : LoopState),
      ¬ detComp (normG (env.gmat lvl (v0.posx, v0.posy))) P.subpixelFactor < 1 →
      trackFrom env P lvl v0 s =
        if (refinedAt env P lvl v0).2.1 then
          { s with
            vecs := (s.vecs.set s.newP v0).set s.newP (refinedAt env P lvl v0).1,
            newP := s.newP + 1, cnt := s.cnt + 1 }
        else
          { s with
            vecs := (s.vecs.set s.newP v0).set s.newP (refinedAt env P lvl v0).1,
            rejected := s.rejected ++ [v0.pid] }) := by
  refine ⟨?_, ?_, ?_⟩
  · intro m sf hin hq
    unfold detComp
    rw [toInt32_eq_self hin, toInt32_eq_self hq]
  · intro lvl v0 s hd
    simp only [trackFrom]
    rw [if_pos hd]
  · intro lvl v0 s hd
    simp only [trackFrom, refinedAt]
    rw [if_neg hd]

/-- C3 counterexample: for in-range `int32_t` entries
`G = [1 65536; 65536 1]` and `subpixel_factor = 1`, the scalar the code
computes is 1 (the 32-bit product `65536·65536` wraps to 0) while the
claim's exact formula gives `1 − 2^32`; the code decides "not degenerate"
where the exact determinant is far below 1. -/
theorem claim3_counterexample :
    detComp ⟨1, 65536, 65536, 1⟩ 1 ≠
      Int.tdiv ((1 : Int) * 1 - 65536 * 65536) ((1 : Nat) : Int) ∧
    ¬ detComp ⟨1, 65536, 65536, 1⟩ 1 < 1 ∧
    Int.tdiv ((1 : Int) * 1 - 65536 * 65536) ((1 : Nat) : Int) < 1 := by decide

/-- C3 witness: an in-range matrix where the computed and exact scalars
agree, and a degenerate matrix whose point is rejected without
refinement. -/
theorem claim3_witness :
    detComp ⟨2, 0, 0, 2⟩ 1 = Int.tdiv ((2 : Int) * 2 - 0 * 0) ((1 : Nat) : Int) ∧
    trackFrom envZ PW 0 dfltFV sW =
      { sW with vecs := sW.vecs.set sW.newP dfltFV, rejected := sW.rejected ++ [dfltFV.pid] } :=
  ⟨(claim3_amended envZ PW).1 ⟨2, 0, 0, 2⟩ 1 (by decide) (by decide),
   (claim3_amended envZ PW).2.1 0 dfltFV sW (by decide)⟩

/-- C2 (amended): the reported survivor counts (`history`, most recent
level first) form a monotone chain - each level's count is at most the
count propagated from the coarser level - and every reported count is at
most `max_points` and at most the input point count.  (The claim's
further assertion that a rejected point is dropped permanently fails,
see the counterexample.) -/
theorem claim2_amended (env : LKEnv) (P : LKParams) :
    List.Chain' (fun a b => a ≤ b) (opticFlowLK env P).history ∧
    (∀ c ∈ (opticFlowLK env P).history, c ≤ P.maxPoints ∧ c ≤ P.pointsCnt) := by
  have hinit : HistInv P (initState P) := by
    unfold HistInv initState
    refine ⟨by simp, by simp, Nat.le_refl _, by simp⟩
  have h := runLevelsRec_histInv env P (expComp P.pyramidLevel)
    P.pyramidLevel (initState P) hinit
  exact ⟨h.1, h.2.1⟩

/-- C2 counterexample: with `envA`/`PA`, point 0 is rejected at pyramid
level 0 (it appears in the rejection log), yet the output still contains
a vector whose data descends from point 0 - its slot was re-processed
after the rejection and re-accepted - so a rejection does not drop the
point permanently. -/
theorem claim2_counterexample :
    0 ∈ (opticFlowLK envA PA).rejected ∧ 0 ∈ outputIds envA PA := by decide

/-- C9: a processed point (`i < min max_points *points_cnt`) whose
finest-resolution coordinate fails the coarsest-level ROI check is
rejected at the coarsest level and removed for the rest of the call: it
is in the rejection log and no output vector carries its provenance. -/
theorem claim9_theorem (env : LKEnv) (P : LKParams) (i : Nat)
    (hi : i < min P.maxPoints P.pointsCnt)
    (hroi : roiFailInit env P P.pyramidLevel (P.points.getD i (0, 0)).1
      (P.points.getD i (0, 0)).2 = true) :
    i ∈ (opticFlowLK env P).rejected ∧ i ∉ outputIds env P := by
  have hmemrec : ∀ (l : Nat) (cs : CallState),
      i ∈ (runLevelStep env P (expComp P.pyramidLevel) cs l).rejected →
      i ∈ (runLevelsRec env P (expComp P.pyramidLevel) l cs).rejected := by
    intro l cs h
    cases l with
    | zero => exact h
    | succ l =>
      obtain ⟨t, ht⟩ := runLevelsRec_rejected_extend env P (expComp P.pyramidLevel) l
        (runLevelStep env P (expComp P.pyramidLevel) cs (l + 1))
      rw [runLevelsRec, ht]
      exact List.mem_append_left t h
  have hstep : i ∈ (runLevelStep env P (expComp P.pyramidLevel)
      (initState P) P.pyramidLevel).rejected := by
    show i ∈ (runLevel env P P.pyramidLevel (P.pyramidLevel == P.pyramidLevel)
      (expComp P.pyramidLevel) (initState P).vecs (initState P).cnt
      (initState P).rejected (initState P).seeds).rejected
    rw [beq_self_eq_true]
    exact foldl_rejected_mem env P P.pyramidLevel (expComp P.pyramidLevel) hroi _ _
      (List.mem_range.mpr hi)
  constructor
  · exact hmemrec P.pyramidLevel (initState P) hstep
  · have hfree : PidFreeL (opticFlowLK env P).vecs i := by
      apply runLevelsRec_pidfree env P (expComp P.pyramidLevel) hroi P.pyramidLevel (initState P)
      intro v hv
      simp only [initState, initVecs] at hv
      obtain ⟨j, hj, rfl⟩ := List.mem_map.mp hv
      have hip : i < P.pointsCnt := Nat.lt_of_lt_of_le hi (Nat.min_le_right _ _)
      simp only []
      omega
    intro hout
    simp only [outputIds, outputVecs] at hout
    obtain ⟨v, hv, hpid⟩ := List.mem_map.mp hout
    exact hfree v (List.take_subset _ _ hv) hpid

/-- C9 witness: the point (0,5) sits on the left border; it is rejected
at the coarsest level and absent from the output. -/
theorem claim9_witness :
    0 ∈ (opticFlowLK envA P9).rejected ∧ 0 ∉ outputIds envA P9 :=
  claim9_theorem envA P9 0 (by decide) (by decide)

/-- C1 (amended): at a level finer than the coarsest, no point is
re-initialized from its pixel coordinate: every processing doubles the
current content of slot `new_p` (recorded, pre-doubling, in the seed log)
before refinement.  When the level rejects no point, the k-th recorded
seed is exactly the k-th carried-over survivor of the previous level, so
each carried-over point's refinement is seeded by doubling its
previous-level estimate.  After a mid-level rejection the same slot is
read (and doubled) again, so the correspondence fails in general - see
the counterexample. -/
theorem claim1_amended (env : LKEnv) (P : LKParams) (lvl expv : Nat) :
    (∀ (s : LoopState) (i : Nat),
      procOne env P lvl false expv s i =
        trackFrom env P lvl (dblFV (s.vecs.getD s.newP dfltFV))
          { s with seeds := s.seeds ++ [(lvl, s.vecs.getD s.newP dfltFV)] }) ∧
    (∀ (vecs : List FlowVec) (cntIn : Nat) (rej : List Nat) (sds : List (Nat × FlowVec)),
      (runLevel env P lvl false expv vecs cntIn rej sds).rejected = rej →
      (runLevel env P lvl false expv vecs cntIn rej sds).seeds =
        sds ++ (List.range (min P.maxPoints cntIn)).map (fun k => (lvl, vecs.getD k dfltFV))) := by
  refine ⟨fun s i => procOne_finer_eq env P lvl expv s i, ?_⟩
  intro vecs cntIn rej sds h
  simp only [runLevel] at h ⊢
  exact (noRejFold env P lvl expv (min P.maxPoints cntIn) vecs rej sds h).2.2.1

/-- C1 witness: a finer level that rejects nothing seeds the k-th
processing with the k-th carried-over estimate. -/
theorem claim1_witness :
    (runLevel envI PA 0 false 2 vecsW 2 [] []).seeds =
      [] ++ (List.range (min PA.maxPoints 2)).map (fun k => (0, vecsW.getD k dfltFV)) :=
  (claim1_amended envI PA 0 2).2 vecsW 2 [] [] (by decide)

/-- C1 counterexample: with `envA`/`PA` the coarsest level carries over
survivors (5,5) and (6,6), but level 0 records the seeds (5,5) and then
(10,10): after point 0's rejection its already-doubled slot is re-read,
so the second refinement at level 0 is seeded by doubling (10,10), which
is not the previous-level estimate of any carried-over point, and
survivor 1 at (6,6) is never refined at all. -/
theorem claim1_counterexample :
    (opticFlowLK envA PA).seeds =
      [(0, ⟨0, 5, 5, 0, 0⟩), (0, ⟨0, 10, 10, 0, 0⟩)] ∧
    survivorsAfterCoarsest envA PA = [⟨0, 5, 5, 0, 0⟩, ⟨1, 6, 6, 0, 0⟩] ∧
    (⟨0, 10, 10, 0, 0⟩ : FlowVec) ∉ survivorsAfterCoarsest envA PA := by decide

/-- C2 witness: for `envA`/`PA` the recorded counts form the chain and
the count 1 reported at the finest level is within both bounds. -/
theorem claim2_witness :
    List.Chain' (fun a b => a ≤ b) (opticFlowLK envA PA).history ∧
    (1 ≤ PA.maxPoints ∧ 1 ≤ PA.pointsCnt) :=
  ⟨(claim2_amended envA PA).1, (claim2_amended envA PA).2 1 (by decide)⟩
